import Mathlib

/-!
Verification of the Financial Metrics & Forecast Engine.

The engine consists of the pure numeric routines `calculateBeta`,
`calculateCovariance` and `generateForecast` (file part_002) and of the
`metrics` risk-summary computation (App.tsx).  JavaScript numbers are
modelled by `JSNum`: exact rationals together with NaN and the two signed
infinities, with the IEEE-754 special-value rules for the arithmetic
operators (rounding and negative zero are not modelled; all divisions and
special values that decide the claims are exact).  `Math.sqrt`, which is
irrational-valued in general, is a parameter of `metrics`; every theorem
constrains it only at arguments where the real square root is rational
(in fact only at 0, where `Math.sqrt` returns exactly 0).  The random
benchmark series produced by `getMarketBenchmark` is likewise a parameter.
-/

/-- Model of a JavaScript number: NaN, plus or minus infinity
(`inf true` is plus infinity), or a finite value modelled as an exact
rational. -/
inductive JSNum where
  | nan : JSNum
  | inf : Bool → JSNum
  | fin : ℚ → JSNum
deriving DecidableEq

/-- JS unary minus. -/
def jneg : JSNum → JSNum
  | JSNum.nan => JSNum.nan
  | JSNum.inf b => JSNum.inf (!b)
  | JSNum.fin q => JSNum.fin (-q)

/-- JS addition: NaN absorbs, infinities of opposite sign give NaN. -/
def jadd : JSNum → JSNum → JSNum
  | JSNum.nan, _ => JSNum.nan
  | _, JSNum.nan => JSNum.nan
  | JSNum.inf b, JSNum.inf c => if b = c then JSNum.inf b else JSNum.nan
  | JSNum.inf b, JSNum.fin _ => JSNum.inf b
  | JSNum.fin _, JSNum.inf c => JSNum.inf c
  | JSNum.fin q, JSNum.fin r => JSNum.fin (q + r)

/-- JS subtraction, `a - b = a + (-b)`. -/
def jsub (a b : JSNum) : JSNum := jadd a (jneg b)

/-- JS multiplication: NaN absorbs, infinity times zero is NaN,
otherwise signs combine. -/
def jmul : JSNum → JSNum → JSNum
  | JSNum.nan, _ => JSNum.nan
  | _, JSNum.nan => JSNum.nan
  | JSNum.inf b, JSNum.inf c => JSNum.inf (b = c)
  | JSNum.inf b, JSNum.fin q =>
      if q = 0 then JSNum.nan else if 0 < q then JSNum.inf b else JSNum.inf (!b)
  | JSNum.fin q, JSNum.inf c =>
      if q = 0 then JSNum.nan else if 0 < q then JSNum.inf c else JSNum.inf (!c)
  | JSNum.fin q, JSNum.fin r => JSNum.fin (q * r)

/-- JS division: NaN absorbs, `0/0` is NaN, a nonzero finite value divided
by zero is a signed infinity, infinity over infinity is NaN, a finite
value over infinity is 0 (signed zeros are collapsed to 0). -/
def jdiv : JSNum → JSNum → JSNum
  | JSNum.nan, _ => JSNum.nan
  | _, JSNum.nan => JSNum.nan
  | JSNum.inf _, JSNum.inf _ => JSNum.nan
  | JSNum.inf b, JSNum.fin q => if 0 ≤ q then JSNum.inf b else JSNum.inf (!b)
  | JSNum.fin _, JSNum.inf _ => JSNum.fin 0
  | JSNum.fin q, JSNum.fin r =>
      if r = 0 then
        (if q = 0 then JSNum.nan
         else if 0 < q then JSNum.inf true else JSNum.inf false)
      else JSNum.fin (q / r)

/-- Model of `array.reduce((a, b) => a + b, 0)` over JS numbers. -/
def jsum (l : List JSNum) : JSNum := l.foldl jadd (JSNum.fin 0)

/-- part_002 `calculateBeta`.  Inputs are finite numbers (return series);
the array sums are exact rational sums of the elements, the per-index loop
accumulations and the final division are JS arithmetic.  For an empty pair
of series the loop accumulators stay 0 and the zero-variance guard fires,
exactly as in the source. -/
def calculateBeta (stockReturns marketReturns : List ℚ) : JSNum :=
  if stockReturns.length ≠ marketReturns.length then JSNum.fin 1 else
  let n := stockReturns.length
  let meanStock := jdiv (JSNum.fin stockReturns.sum) (JSNum.fin (n : ℚ))
  let meanMarket := jdiv (JSNum.fin marketReturns.sum) (JSNum.fin (n : ℚ))
  let covariance := jsum ((List.range n).map (fun i =>
      jmul (jsub (JSNum.fin (stockReturns.getD i 0)) meanStock)
           (jsub (JSNum.fin (marketReturns.getD i 0)) meanMarket)))
  let marketVariance := jsum ((List.range n).map (fun i =>
      jmul (jsub (JSNum.fin (marketReturns.getD i 0)) meanMarket)
           (jsub (JSNum.fin (marketReturns.getD i 0)) meanMarket)))
  if marketVariance = JSNum.fin 0 then JSNum.fin 1 else jdiv covariance marketVariance

/-- part_002 `calculateCovariance`.  After the guard the length is at
least 1, so both means and the accumulated sum are exact rationals; the
final division by `n - 1` is JS division (it is `0/0 = NaN` when the
length is exactly 1). -/
def calculateCovariance (arr1 arr2 : List ℚ) : JSNum :=
  if arr1.length ≠ arr2.length ∨ arr1.length = 0 then JSNum.fin 0 else
  let n := arr1.length
  let mean1 := arr1.sum / (n : ℚ)
  let mean2 := arr2.sum / (n : ℚ)
  let sum := ((List.range n).map (fun i =>
      (arr1.getD i 0 - mean1) * (arr2.getD i 0 - mean2))).sum
  jdiv (JSNum.fin sum) (JSNum.fin ((n : ℚ) - 1))

/-- part_002 `generateForecast`, `sumX` (the x values are the indices
`0 .. n-1`). -/
def fcSumX (n : ℕ) : ℚ := ((List.range n).map (fun (i : ℕ) => (i : ℚ))).sum

/-- part_002 `generateForecast`, `sumXY = x.reduce((a, i) => a + i * y[i], 0)`. -/
def fcSumXY (data : List ℚ) : ℚ :=
  ((List.range data.length).map (fun (i : ℕ) => (i : ℚ) * data.getD i 0)).sum

/-- part_002 `generateForecast`, `sumXX = x.reduce((a, i) => a + i * i, 0)`. -/
def fcSumXX (n : ℕ) : ℚ := ((List.range n).map (fun (i : ℕ) => (i : ℚ) * (i : ℚ))).sum

/-- part_002 `generateForecast`, `slope = (n·sumXY - sumX·sumY) / (n·sumXX -
sumX·sumX)` in JS arithmetic: for a series of length 0 or 1 this is `0/0 = NaN`. -/
def fcSlope (data : List ℚ) : JSNum :=
  jdiv (JSNum.fin ((data.length : ℚ) * fcSumXY data - fcSumX data.length * data.sum))
       (JSNum.fin ((data.length : ℚ) * fcSumXX data.length - fcSumX data.length * fcSumX data.length))

/-- part_002 `generateForecast`, `intercept = (sumY - slope·sumX) / n`. -/
def fcIntercept (data : List ℚ) : JSNum :=
  jdiv (jsub (JSNum.fin data.sum) (jmul (fcSlope data) (JSNum.fin (fcSumX data.length))))
       (JSNum.fin (data.length : ℚ))

/-- part_002 `generateForecast`, `ssTot = y.reduce((a, v) => a + (v - yMean)^2, 0)`
with `yMean = sumY / n`; entirely finite arithmetic on the input values
(the source computes `yMean` even when `n = 0`, but then the sum is empty
and `ssTot = 0` either way). -/
def fcSsTot (data : List ℚ) : ℚ :=
  ((List.range data.length).map (fun i =>
      (data.getD i 0 - data.sum / (data.length : ℚ)) *
      (data.getD i 0 - data.sum / (data.length : ℚ)))).sum

/-- part_002 `generateForecast`, `ssRes = y.reduce((a, v, i) => a +
(v - (slope·i + intercept))^2, 0)` in JS arithmetic. -/
def fcSsRes (data : List ℚ) : JSNum :=
  jsum ((List.range data.length).map (fun i =>
      jmul (jsub (JSNum.fin (data.getD i 0))
                 (jadd (jmul (fcSlope data) (JSNum.fin (i : ℚ))) (fcIntercept data)))
           (jsub (JSNum.fin (data.getD i 0))
                 (jadd (jmul (fcSlope data) (JSNum.fin (i : ℚ))) (fcIntercept data)))))

/-- part_002 `generateForecast(data, steps = 6)`: the forecast list
`slope·i + intercept` for `i = n .. n+steps-1`, and `rSquared = ssTot === 0 ?
0 : 1 - ssRes / ssTot`. -/
def generateForecast (data : List ℚ) (steps : ℕ := 6) : List JSNum × JSNum :=
  ((List.range steps).map (fun k =>
      jadd (jmul (fcSlope data) (JSNum.fin ((data.length + k : ℕ) : ℚ))) (fcIntercept data)),
   if fcSsTot data = 0 then JSNum.fin 0
   else jsub (JSNum.fin 1) (jdiv (fcSsRes data) (JSNum.fin (fcSsTot data))))

/-- The `MetricSummary` record of App.tsx (the `symbol` string field is
omitted; it carries no numeric content).  Fields that the code computes
with possibly-degenerate divisions are `JSNum`. -/
structure MetricSummary where
  growth : ℚ
  volatility : ℚ
  sharpe : JSNum
  beta : JSNum
  covariance : JSNum
  cagr : ℚ
  confidence : JSNum
deriving DecidableEq

/-- App.tsx `metrics`.  `sqrtFn` stands for `Math.sqrt` (irrational-valued
in general, hence a parameter; the theorems constrain it only at 0 where
`Math.sqrt` is exactly 0).  `benchmarkReturns` stands for the random
series `getMarketBenchmark(returns.length)`.  `stockHistory` is the list
of close prices of the history points (only `close` is read; the
documented data-model invariant is `close > 0`, under which the simple
returns are exact rationals). -/
def metrics (sqrtFn : ℚ → ℚ) (benchmarkReturns : List ℚ)
    (stockHistory : List ℚ) : MetricSummary :=
  if stockHistory.length < 2 then
    ⟨0, 0, JSNum.fin 0, JSNum.fin 1, JSNum.fin 0, 0, JSNum.fin 0⟩
  else
    let closes := stockHistory
    let returns := (List.range (closes.length - 1)).map (fun i =>
        (closes.getD (i + 1) 0 - closes.getD i 0) / closes.getD i 0)
    let growth := returns.sum / (returns.length : ℚ) * 100
    let vol := sqrtFn ((returns.map (fun b =>
        (b - growth / 100) * (b - growth / 100))).sum / (returns.length : ℚ)) * 100
    ⟨growth, vol, jdiv (JSNum.fin growth) (JSNum.fin vol),
     calculateBeta returns benchmarkReturns,
     calculateCovariance returns benchmarkReturns,
     0,
     jmul (generateForecast closes).2 (JSNum.fin 100)⟩

/-- Mean of a series, as in the spec formulas. -/
def meanQ (l : List ℚ) : ℚ := l.sum / (l.length : ℚ)

/-- The spec sum `Σ (x_i - meanX)·(y_i - meanY)`. -/
def devProd (x y : List ℚ) : ℚ :=
  ∑ i in Finset.range x.length, (x.getD i 0 - meanQ x) * (y.getD i 0 - meanQ y)

/-- The spec benchmark-variance sum `Σ (y_i - meanY)²`. -/
def devSq (y : List ℚ) : ℚ :=
  ∑ i in Finset.range y.length, (y.getD i 0 - meanQ y) * (y.getD i 0 - meanQ y)

/-- Sample variance, following the spec words: `Σ (x_i - meanX)² / (n - 1)`. -/
def sampleVariance (x : List ℚ) : ℚ := devSq x / ((x.length : ℚ) - 1)

/-- Exact value of the regression slope for a series of length at least 2,
written over the index sums. -/
def slopeQ (data : List ℚ) : ℚ :=
  ((data.length : ℚ) * fcSumXY data - fcSumX data.length * data.sum) /
  ((data.length : ℚ) * fcSumXX data.length - fcSumX data.length * fcSumX data.length)

/-- Exact value of the regression intercept for a series of length at least 2. -/
def interceptQ (data : List ℚ) : ℚ :=
  (data.sum - slopeQ data * fcSumX data.length) / (data.length : ℚ)

/-- Exact value of the residual sum of squares for a series of length at
least 2. -/
def ssResQ (data : List ℚ) : ℚ :=
  ∑ i in Finset.range data.length,
    (data.getD i 0 - (slopeQ data * (i : ℚ) + interceptQ data)) *
    (data.getD i 0 - (slopeQ data * (i : ℚ) + interceptQ data))

/-- Exact value of the total sum of squares `Σ (y_i - mean y)²`. -/
def ssTotQ (data : List ℚ) : ℚ :=
  ∑ i in Finset.range data.length,
    (data.getD i 0 - meanQ data) * (data.getD i 0 - meanQ data)

/-! ## Basic facts about the JS-number operations -/

theorem jadd_fin (a b : ℚ) : jadd (JSNum.fin a) (JSNum.fin b) = JSNum.fin (a + b) := rfl

theorem jsub_fin (a b : ℚ) : jsub (JSNum.fin a) (JSNum.fin b) = JSNum.fin (a - b) := by
  simp [jsub, jadd, jneg, sub_eq_add_neg]

theorem jmul_fin (a b : ℚ) : jmul (JSNum.fin a) (JSNum.fin b) = JSNum.fin (a * b) := rfl

theorem jdiv_fin_of_ne (a : ℚ) {b : ℚ} (h : b ≠ 0) :
    jdiv (JSNum.fin a) (JSNum.fin b) = JSNum.fin (a / b) := by
  simp [jdiv, h]

theorem jdiv_fin_zero (a : ℚ) :
    jdiv (JSNum.fin a) (JSNum.fin 0) =
      if a = 0 then JSNum.nan else if 0 < a then JSNum.inf true else JSNum.inf false := by
  simp [jdiv]

theorem jmul_nan_left (a : JSNum) : jmul JSNum.nan a = JSNum.nan := by
  cases a <;> rfl

theorem jsub_fin_nan (a : ℚ) : jsub (JSNum.fin a) JSNum.nan = JSNum.nan := rfl

theorem jdiv_nan_left (a : JSNum) : jdiv JSNum.nan a = JSNum.nan := by
  cases a <;> rfl

theorem jadd_nan_right (a : JSNum) : jadd a JSNum.nan = JSNum.nan := by
  cases a <;> rfl

theorem jsum_foldl_fin {α : Type} (f : α → ℚ) :
    ∀ (l : List α) (q : ℚ),
      List.foldl jadd (JSNum.fin q) (l.map (fun a => JSNum.fin (f a))) =
        JSNum.fin (q + (l.map f).sum) := by
  intro l
  induction l with
  | nil => intro q; simp
  | cons a t ih =>
      intro q
      simp [jadd_fin, ih, add_assoc]

/-- A fold of JS additions over finite values is the exact rational sum. -/
theorem jsum_map_fin {α : Type} (l : List α) (f : α → ℚ) :
    jsum (l.map (fun a => JSNum.fin (f a))) = JSNum.fin ((l.map f).sum) := by
  simpa using jsum_foldl_fin f l 0

/-! ## Sums over index ranges -/

/-- A mapped sum over `List.range` is the corresponding `Finset.range` sum. -/
theorem listRangeSum (f : ℕ → ℚ) : ∀ n : ℕ,
    ((List.range n).map f).sum = ∑ i in Finset.range n, f i := by
  intro n
  induction n with
  | zero => simp
  | succ n ih => simp [List.range_succ, Finset.sum_range_succ, ih]

/-- A list sum is the `Finset.range` sum of its entries. -/
theorem listSum_eq_range : ∀ data : List ℚ,
    data.sum = ∑ i in Finset.range data.length, data.getD i 0 := by
  intro data
  induction data with
  | nil => simp
  | cons a t ih =>
      simp [Finset.sum_range_succ', List.getD_cons_succ, List.getD_cons_zero, ih, add_comm]

theorem getD_replicate (c : ℚ) : ∀ (n i : ℕ), i < n → (List.replicate n c).getD i 0 = c := by
  intro n
  induction n with
  | zero => intro i h; omega
  | succ n ih =>
      intro i h
      cases i with
      | zero => simp [List.replicate_succ]
      | succ i => simpa [List.replicate_succ] using ih i (by omega)

theorem getD_map_two_mul (x : List ℚ) : ∀ i : ℕ,
    (x.map (fun a => 2 * a)).getD i 0 = 2 * x.getD i 0 := by
  induction x with
  | nil => intro i; simp
  | cons a t ih =>
      intro i
      cases i with
      | zero => simp
      | succ i => simpa using ih i

/-! ## Characterisation of `calculateBeta` and `calculateCovariance` -/

theorem calculateBeta_ne_length (x y : List ℚ) (h : x.length ≠ y.length) :
    calculateBeta x y = JSNum.fin 1 := by
  unfold calculateBeta
  rw [if_pos h]

theorem calculateBeta_nil : calculateBeta [] [] = JSNum.fin 1 := by
  simp [calculateBeta, jsum]

theorem calculateBeta_eq (x y : List ℚ) (h : x.length = y.length) (hn : x.length ≠ 0) :
    calculateBeta x y =
      if devSq y = 0 then JSNum.fin 1 else JSNum.fin (devProd x y / devSq y) := by
  have hq : ((x.length : ℚ)) ≠ 0 := by exact_mod_cast hn
  have hmean1 : jdiv (JSNum.fin x.sum) (JSNum.fin (x.length : ℚ)) = JSNum.fin (meanQ x) := by
    rw [jdiv_fin_of_ne _ hq]; rfl
  have hmean2 : jdiv (JSNum.fin y.sum) (JSNum.fin (x.length : ℚ)) = JSNum.fin (meanQ y) := by
    rw [jdiv_fin_of_ne _ hq, meanQ, h]
  unfold calculateBeta
  rw [if_neg (by simp [h])]
  simp only [hmean1, hmean2, jsub_fin, jmul_fin, jsum_map_fin, listRangeSum]
  have hdev : (∑ i in Finset.range x.length,
      (y.getD i 0 - meanQ y) * (y.getD i 0 - meanQ y)) = devSq y := by
    rw [devSq, h]
  have hdevp : (∑ i in Finset.range x.length,
      (x.getD i 0 - meanQ x) * (y.getD i 0 - meanQ y)) = devProd x y := rfl
  rw [hdev, hdevp]
  rcases eq_or_ne (devSq y) 0 with hv | hv
  · simp [hv]
  · simp [hv, jdiv_fin_of_ne _ hv]

theorem calculateCovariance_guard (a b : List ℚ) (h : a.length ≠ b.length ∨ a.length = 0) :
    calculateCovariance a b = JSNum.fin 0 := by
  unfold calculateCovariance
  rw [if_pos h]

theorem calculateCovariance_eq (a b : List ℚ) (h : a.length = b.length) (hn : a.length ≠ 0) :
    calculateCovariance a b = jdiv (JSNum.fin (devProd a b)) (JSNum.fin ((a.length : ℚ) - 1)) := by
  unfold calculateCovariance
  rw [if_neg (by push_neg; exact ⟨h, hn⟩)]
  simp only [listRangeSum]
  have : (∑ i in Finset.range a.length,
      (a.getD i 0 - a.sum / (a.length : ℚ)) * (b.getD i 0 - b.sum / (a.length : ℚ)))
      = devProd a b := by
    rw [devProd, meanQ, meanQ, h]
  rw [this]

/-! ## Characterisation of `generateForecast` -/

theorem sumX_closed (n : ℕ) :
    (∑ i in Finset.range n, (i : ℚ)) = (n : ℚ) * ((n : ℚ) - 1) / 2 := by
  induction n with
  | zero => simp
  | succ n ih =>
      rw [Finset.sum_range_succ, ih]
      push_cast
      ring

theorem sumXX_closed (n : ℕ) :
    (∑ i in Finset.range n, (i : ℚ) * (i : ℚ)) =
      (n : ℚ) * ((n : ℚ) - 1) * (2 * (n : ℚ) - 1) / 6 := by
  induction n with
  | zero => simp
  | succ n ih =>
      rw [Finset.sum_range_succ, ih]
      push_cast
      ring

theorem denom_eq (n : ℕ) :
    (n : ℚ) * fcSumXX n - fcSumX n * fcSumX n = (n : ℚ) ^ 2 * ((n : ℚ) ^ 2 - 1) / 12 := by
  unfold fcSumX fcSumXX
  rw [listRangeSum, listRangeSum, sumX_closed, sumXX_closed]
  ring

theorem denom_pos {n : ℕ} (h : 2 ≤ n) :
    0 < (n : ℚ) * fcSumXX n - fcSumX n * fcSumX n := by
  rw [denom_eq]
  have hn : (2 : ℚ) ≤ (n : ℚ) := by exact_mod_cast h
  have h1 : (0 : ℚ) < (n : ℚ) ^ 2 := by nlinarith
  have h2 : (0 : ℚ) < (n : ℚ) ^ 2 - 1 := by nlinarith
  exact div_pos (mul_pos h1 h2) (by norm_num)

theorem fcSlope_eq (data : List ℚ) (h : 2 ≤ data.length) :
    fcSlope data = JSNum.fin (slopeQ data) := by
  have hD : ((data.length : ℚ) * fcSumXX data.length -
      fcSumX data.length * fcSumX data.length) ≠ 0 := ne_of_gt (denom_pos h)
  unfold fcSlope slopeQ
  rw [jdiv_fin_of_ne _ hD]

theorem fcIntercept_eq (data : List ℚ) (h : 2 ≤ data.length) :
    fcIntercept data = JSNum.fin (interceptQ data) := by
  have hq : ((data.length : ℚ)) ≠ 0 := Nat.cast_ne_zero.mpr (by omega)
  unfold fcIntercept interceptQ
  rw [fcSlope_eq data h, jmul_fin, jsub_fin, jdiv_fin_of_ne _ hq]

theorem fcSsTot_eq (data : List ℚ) : fcSsTot data = ssTotQ data := by
  unfold fcSsTot ssTotQ meanQ
  rw [listRangeSum]

theorem fcSsRes_eq (data : List ℚ) (h : 2 ≤ data.length) :
    fcSsRes data = JSNum.fin (ssResQ data) := by
  unfold fcSsRes ssResQ
  rw [fcSlope_eq data h, fcIntercept_eq data h]
  simp only [jmul_fin, jadd_fin, jsub_fin, jsum_map_fin, listRangeSum]

theorem generateForecast_points (data : List ℚ) (steps : ℕ) (h : 2 ≤ data.length) :
    (generateForecast data steps).1 = (List.range steps).map
      (fun (k : ℕ) => JSNum.fin (slopeQ data * ((data.length : ℚ) + (k : ℚ)) + interceptQ data)) := by
  unfold generateForecast
  simp only [fcSlope_eq data h, fcIntercept_eq data h, jmul_fin, jadd_fin]
  apply List.map_congr_left
  intro k hk
  have hcast : ((data.length + k : ℕ) : ℚ) = (data.length : ℚ) + (k : ℚ) := by push_cast; ring
  rw [hcast]

theorem generateForecast_rSq (data : List ℚ) (steps : ℕ) (h : 2 ≤ data.length) :
    (generateForecast data steps).2 =
      if ssTotQ data = 0 then JSNum.fin 0
      else JSNum.fin (1 - ssResQ data / ssTotQ data) := by
  unfold generateForecast
  simp only [fcSsTot_eq, fcSsRes_eq data h]
  rcases eq_or_ne (ssTotQ data) 0 with hv | hv
  · simp [hv]
  · simp [hv, jdiv_fin_of_ne _ hv, jsub_fin]

theorem fcSlope_nil : fcSlope [] = JSNum.nan := by
  norm_num [fcSlope, fcSumX, fcSumXY, fcSumXX, jdiv]

theorem fcSlope_single (a : ℚ) : fcSlope [a] = JSNum.nan := by
  norm_num [fcSlope, fcSumX, fcSumXY, fcSumXX, jdiv, List.range_succ]

theorem generateForecast_degenerate (data : List ℚ) (steps : ℕ) (h : data.length < 2) :
    generateForecast data steps = (List.replicate steps JSNum.nan, JSNum.fin 0) := by
  cases data with
  | nil =>
      have h2 : fcIntercept [] = JSNum.nan := by
        simp [fcIntercept, fcSlope_nil, jmul_nan_left, jsub_fin_nan, jdiv_nan_left]
      have h3 : fcSsTot ([] : List ℚ) = 0 := by simp [fcSsTot]
      simp [generateForecast, fcSlope_nil, h2, h3, jmul_nan_left, jadd, List.map_const']
  | cons a t =>
      cases t with
      | nil =>
          have h2 : fcIntercept [a] = JSNum.nan := by
            simp [fcIntercept, fcSlope_single, jmul_nan_left, jsub_fin_nan, jdiv_nan_left]
          have h3 : fcSsTot [a] = 0 := by
            norm_num [fcSsTot, List.range_succ]
          simp [generateForecast, fcSlope_single, h2, h3, jmul_nan_left, jadd, List.map_const']
      | cons b t2 => simp at h; omega

/-! ## The least-squares identity behind the R-squared bound -/

theorem fcSumX_eq (n : ℕ) : fcSumX n = ∑ i in Finset.range n, (i : ℚ) :=
  listRangeSum _ n

theorem fcSumXX_eq (n : ℕ) : fcSumXX n = ∑ i in Finset.range n, (i : ℚ) * (i : ℚ) :=
  listRangeSum _ n

theorem fcSumXY_eq (data : List ℚ) :
    fcSumXY data = ∑ i in Finset.range data.length, (i : ℚ) * data.getD i 0 :=
  listRangeSum _ _

theorem sum_sq_affine (y : ℕ → ℚ) (m b : ℚ) : ∀ n : ℕ,
    (∑ i in Finset.range n, (y i - (m * (i : ℚ) + b)) * (y i - (m * (i : ℚ) + b)))
      = (∑ i in Finset.range n, y i * y i)
        + m * m * (∑ i in Finset.range n, (i : ℚ) * (i : ℚ))
        + (n : ℚ) * (b * b)
        - 2 * m * (∑ i in Finset.range n, (i : ℚ) * y i)
        - 2 * b * (∑ i in Finset.range n, y i)
        + 2 * (m * b) * (∑ i in Finset.range n, (i : ℚ)) := by
  intro n
  induction n with
  | zero => simp
  | succ n ih =>
      simp only [Finset.sum_range_succ]
      rw [ih]
      push_cast
      ring

theorem sum_sq_const (y : ℕ → ℚ) (c : ℚ) : ∀ n : ℕ,
    (∑ i in Finset.range n, (y i - c) * (y i - c))
      = (∑ i in Finset.range n, y i * y i)
        - 2 * c * (∑ i in Finset.range n, y i) + (n : ℚ) * (c * c) := by
  intro n
  induction n with
  | zero => simp
  | succ n ih =>
      simp only [Finset.sum_range_succ]
      rw [ih]
      push_cast
      ring

theorem ols_key (S1 S2 SY SXY SYY n m b D : ℚ) (hn : n ≠ 0) (hD : D ≠ 0)
    (hDdef : D = n * S2 - S1 * S1)
    (hm : m = (n * SXY - S1 * SY) / D)
    (hb : b = (SY - m * S1) / n) :
    SYY + m * m * S2 + n * (b * b) - 2 * m * SXY - 2 * b * SY + 2 * (m * b) * S1
      = (SYY - 2 * (SY / n) * SY + n * ((SY / n) * (SY / n))) - m * m * D / n := by
  subst hb
  subst hm
  subst hDdef
  field_simp
  ring

theorem ssResQ_val (data : List ℚ) (h : 2 ≤ data.length) :
    ssResQ data = ssTotQ data -
      slopeQ data * slopeQ data *
        ((data.length : ℚ) * fcSumXX data.length - fcSumX data.length * fcSumX data.length) /
        (data.length : ℚ) := by
  have hn : ((data.length : ℚ)) ≠ 0 := Nat.cast_ne_zero.mpr (by omega)
  have hD : ((data.length : ℚ) * fcSumXX data.length -
      fcSumX data.length * fcSumX data.length) ≠ 0 := ne_of_gt (denom_pos h)
  have hDdef : ((data.length : ℚ) * fcSumXX data.length -
      fcSumX data.length * fcSumX data.length)
      = (data.length : ℚ) * (∑ i in Finset.range data.length, (i : ℚ) * (i : ℚ))
        - (∑ i in Finset.range data.length, (i : ℚ)) * (∑ i in Finset.range data.length, (i : ℚ)) := by
    rw [fcSumXX_eq, fcSumX_eq]
  have hm : slopeQ data
      = ((data.length : ℚ) * (∑ i in Finset.range data.length, (i : ℚ) * data.getD i 0)
          - (∑ i in Finset.range data.length, (i : ℚ)) *
            (∑ i in Finset.range data.length, data.getD i 0))
        / ((data.length : ℚ) * fcSumXX data.length -
            fcSumX data.length * fcSumX data.length) := by
    unfold slopeQ
    rw [fcSumXY_eq, fcSumX_eq, listSum_eq_range]
  have hb : interceptQ data
      = ((∑ i in Finset.range data.length, data.getD i 0)
          - slopeQ data * (∑ i in Finset.range data.length, (i : ℚ))) / (data.length : ℚ) := by
    unfold interceptQ
    rw [fcSumX_eq, listSum_eq_range]
  have e1 := sum_sq_affine (fun i => data.getD i 0) (slopeQ data) (interceptQ data) data.length
  have e2 := sum_sq_const (fun i => data.getD i 0)
      ((∑ i in Finset.range data.length, data.getD i 0) / (data.length : ℚ)) data.length
  have key := ols_key
      (∑ i in Finset.range data.length, (i : ℚ))
      (∑ i in Finset.range data.length, (i : ℚ) * (i : ℚ))
      (∑ i in Finset.range data.length, data.getD i 0)
      (∑ i in Finset.range data.length, (i : ℚ) * data.getD i 0)
      (∑ i in Finset.range data.length, data.getD i 0 * data.getD i 0)
      (data.length : ℚ) (slopeQ data) (interceptQ data)
      ((data.length : ℚ) * fcSumXX data.length - fcSumX data.length * fcSumX data.length)
      hn hD hDdef hm hb
  have hTot : ssTotQ data
      = (∑ i in Finset.range data.length, data.getD i 0 * data.getD i 0)
        - 2 * ((∑ i in Finset.range data.length, data.getD i 0) / (data.length : ℚ)) *
            (∑ i in Finset.range data.length, data.getD i 0)
        + (data.length : ℚ) *
            (((∑ i in Finset.range data.length, data.getD i 0) / (data.length : ℚ)) *
             ((∑ i in Finset.range data.length, data.getD i 0) / (data.length : ℚ))) := by
    unfold ssTotQ meanQ
    rw [listSum_eq_range] at *
    exact e2
  have hRes : ssResQ data
      = (∑ i in Finset.range data.length, data.getD i 0 * data.getD i 0)
        + slopeQ data * slopeQ data * (∑ i in Finset.range data.length, (i : ℚ) * (i : ℚ))
        + (data.length : ℚ) * (interceptQ data * interceptQ data)
        - 2 * slopeQ data * (∑ i in Finset.range data.length, (i : ℚ) * data.getD i 0)
        - 2 * interceptQ data * (∑ i in Finset.range data.length, data.getD i 0)
        + 2 * (slopeQ data * interceptQ data) * (∑ i in Finset.range data.length, (i : ℚ)) := by
    unfold ssResQ
    exact e1
  rw [hRes, hTot]
  linarith [key]

theorem ssTotQ_nonneg (data : List ℚ) : 0 ≤ ssTotQ data :=
  Finset.sum_nonneg (fun _ _ => mul_self_nonneg _)

theorem ssResQ_nonneg (data : List ℚ) : 0 ≤ ssResQ data :=
  Finset.sum_nonneg (fun _ _ => mul_self_nonneg _)

theorem ssResQ_le_ssTotQ (data : List ℚ) (h : 2 ≤ data.length) :
    ssResQ data ≤ ssTotQ data := by
  rw [ssResQ_val data h]
  have hn : (0 : ℚ) < (data.length : ℚ) := by
    have : 0 < data.length := by omega
    exact_mod_cast this
  have hD := denom_pos (n := data.length) h
  have hnn : 0 ≤ slopeQ data * slopeQ data *
      ((data.length : ℚ) * fcSumXX data.length - fcSumX data.length * fcSumX data.length) /
      (data.length : ℚ) :=
    div_nonneg (mul_nonneg (mul_self_nonneg _) (le_of_lt hD)) (le_of_lt hn)
  linarith

/-! ## Facts about the `metrics` computation -/

theorem metrics_short (sqrtFn : ℚ → ℚ) (bench hist : List ℚ) (h : hist.length < 2) :
    metrics sqrtFn bench hist =
      ⟨0, 0, JSNum.fin 0, JSNum.fin 1, JSNum.fin 0, 0, JSNum.fin 0⟩ := by
  unfold metrics
  rw [if_pos h]

theorem metrics_constant (sqrtFn : ℚ → ℚ) (bench closes : List ℚ) (r : ℚ)
    (h0 : sqrtFn 0 = 0) (hlen : 2 ≤ closes.length)
    (hr : ∀ i : ℕ, i + 1 < closes.length →
      (closes.getD (i + 1) 0 - closes.getD i 0) / closes.getD i 0 = r) :
    (metrics sqrtFn bench closes).volatility = 0 ∧
      (metrics sqrtFn bench closes).sharpe = jdiv (JSNum.fin (r * 100)) (JSNum.fin 0) := by
  have hm0 : closes.length - 1 ≠ 0 := by omega
  have hmq : ((closes.length - 1 : ℕ) : ℚ) ≠ 0 := Nat.cast_ne_zero.mpr hm0
  have hret : (List.range (closes.length - 1)).map
      (fun i => (closes.getD (i + 1) 0 - closes.getD i 0) / closes.getD i 0)
      = List.replicate (closes.length - 1) r := by
    have hcg : ∀ i ∈ List.range (closes.length - 1),
        (closes.getD (i + 1) 0 - closes.getD i 0) / closes.getD i 0 = r := by
      intro i hi
      have : i < closes.length - 1 := List.mem_range.mp hi
      exact hr i (by omega)
    rw [List.map_congr_left hcg, List.map_const', List.length_range]
  have hG : (List.replicate (closes.length - 1) r).sum /
      ((List.replicate (closes.length - 1) r).length : ℚ) * 100 = r * 100 := by
    rw [List.sum_replicate, List.length_replicate, nsmul_eq_mul, mul_div_cancel_left₀ _ hmq]
  have hr100 : r * 100 / 100 = r := by field_simp
  unfold metrics
  rw [if_neg (by omega)]
  simp only [hret]
  simp only [hG]
  simp only [hr100]
  simp only [List.map_replicate, sub_self, zero_mul, mul_zero]
  simp only [List.sum_replicate, smul_zero, zero_div, h0, zero_mul]
  exact ⟨trivial, trivial⟩

/-! ## The claims -/

/-- C1 counterexample: for the length-1 series `[5]` and `steps = 1` the
source has no short-series guard — the slope is `0/0 = NaN` — so the
forecast is the one-element list `[NaN]`, not the empty points list the
claim asserts (the returned `rSquared` is 0 as claimed). -/
theorem claim_C1_counterexample :
    generateForecast [(5 : ℚ)] 1 = ([JSNum.nan], JSNum.fin 0) ∧
      ([JSNum.nan] : List JSNum) ≠ [] := by
  constructor
  · simpa using generateForecast_degenerate [(5 : ℚ)] 1 (by norm_num)
  · simp

/-- C1 (amended): for every closes series of length < 2 and every steps,
`generateForecast` never throws and returns `rSquared = 0`, but the points
list is not empty: it has exactly `steps` elements, each of them NaN
(the unguarded regression denominator `n·Σx² - (Σx)²` is 0, so the slope
is `0/0 = NaN` and NaN propagates into every projected point). -/
theorem claim_C1 (data : List ℚ) (steps : ℕ) (h : data.length < 2) :
    generateForecast data steps = (List.replicate steps JSNum.nan, JSNum.fin 0) :=
  generateForecast_degenerate data steps h

theorem claim_C1_witness :
    ([(5 : ℚ)] : List ℚ).length < 2 ∧
      generateForecast [(5 : ℚ)] 2 = (List.replicate 2 JSNum.nan, JSNum.fin 0) :=
  ⟨by norm_num, claim_C1 [(5 : ℚ)] 2 (by norm_num)⟩

/-- C2: for every stock-history series of length < 2 and any benchmark
(and any square-root function), the risk-summary computation returns the
neutral summary growth = 0, volatility = 0, sharpe = 0, beta = 1,
covariance = 0, confidence = 0 (and cagr = 0) instead of failing. -/
theorem claim_C2 (sqrtFn : ℚ → ℚ) (bench hist : List ℚ) (h : hist.length < 2) :
    metrics sqrtFn bench hist =
      ⟨0, 0, JSNum.fin 0, JSNum.fin 1, JSNum.fin 0, 0, JSNum.fin 0⟩ :=
  metrics_short sqrtFn bench hist h

theorem claim_C2_witness :
    ([(100 : ℚ)] : List ℚ).length < 2 ∧
      metrics Rat.sqrt [] [(100 : ℚ)] =
        ⟨0, 0, JSNum.fin 0, JSNum.fin 1, JSNum.fin 0, 0, JSNum.fin 0⟩ :=
  ⟨by norm_num, claim_C2 Rat.sqrt [] [(100 : ℚ)] (by norm_num)⟩

/-- C3: `calculateBeta` is total (the embedding is a total function, so it
never throws) and returns `1.0` on mismatched lengths, returns `1.0`
whenever the benchmark deviation-square sum `Σ (y_i - meanY)²` is 0 (in
particular for an all-zero benchmark, whose deviation sum is 0), and
otherwise returns `Σ (x_i - meanX)(y_i - meanY) / Σ (y_i - meanY)²`. -/
theorem claim_C3 (x y : List ℚ) :
    (x.length ≠ y.length → calculateBeta x y = JSNum.fin 1) ∧
    (devSq y = 0 → calculateBeta x y = JSNum.fin 1) ∧
    (x.length = y.length → devSq y ≠ 0 →
      calculateBeta x y = JSNum.fin (devProd x y / devSq y)) := by
  refine ⟨fun h => calculateBeta_ne_length x y h, ?_, ?_⟩
  · intro hv
    rcases eq_or_ne x.length y.length with h | h
    · rcases eq_or_ne x.length 0 with h0 | h0
      · have hx : x = [] := List.length_eq_zero.mp h0
        have hy : y = [] := List.length_eq_zero.mp (by omega)
        rw [hx, hy, calculateBeta_nil]
      · rw [calculateBeta_eq x y h h0, if_pos hv]
    · exact calculateBeta_ne_length x y h
  · intro h hv
    have h0 : x.length ≠ 0 := by
      intro h0
      apply hv
      have hy0 : y.length = 0 := by omega
      simp [devSq, hy0]
    rw [calculateBeta_eq x y h h0, if_neg hv]

theorem claim_C3_witness :
    calculateBeta [(1 : ℚ)] [(0 : ℚ), 1] = JSNum.fin 1 ∧
    calculateBeta [(1 : ℚ), 2] [(3 : ℚ), 3] = JSNum.fin 1 ∧
    calculateBeta [(1 : ℚ), 2] [(0 : ℚ), 2] =
      JSNum.fin (devProd [(1 : ℚ), 2] [(0 : ℚ), 2] / devSq [(0 : ℚ), 2]) := by
  refine ⟨(claim_C3 _ _).1 (by norm_num),
    (claim_C3 _ _).2.1 (by norm_num [devSq, meanQ, Finset.sum_range_succ]),
    (claim_C3 _ _).2.2 (by norm_num) (by norm_num [devSq, meanQ, Finset.sum_range_succ])⟩

/-- C4: `calculateCovariance` returns 0 on mismatched lengths or an empty
input; on equal lengths of at least 2 it returns the sample covariance
`Σ (a_i - meanA)(b_i - meanB) / (n - 1)`; consequently the self-covariance
of any series of length at least 2 is its sample variance. -/
theorem claim_C4 (a b : List ℚ) :
    ((a.length ≠ b.length ∨ a.length = 0) → calculateCovariance a b = JSNum.fin 0) ∧
    (a.length = b.length → 2 ≤ a.length →
      calculateCovariance a b = JSNum.fin (devProd a b / ((a.length : ℚ) - 1))) ∧
    (2 ≤ a.length → calculateCovariance a a = JSNum.fin (sampleVariance a)) := by
  have hden : ∀ h2 : 2 ≤ a.length, ((a.length : ℚ) - 1) ≠ 0 := by
    intro h2
    have h1 : (1 : ℚ) < (a.length : ℚ) := by exact_mod_cast (by omega : 1 < a.length)
    intro hc
    linarith
  refine ⟨fun h => calculateCovariance_guard a b h, fun h h2 => ?_, fun h2 => ?_⟩
  · rw [calculateCovariance_eq a b h (by omega), jdiv_fin_of_ne _ (hden h2)]
  · rw [calculateCovariance_eq a a rfl (by omega), jdiv_fin_of_ne _ (hden h2)]
    unfold devProd sampleVariance devSq
    rfl

theorem claim_C4_witness :
    calculateCovariance [(1 : ℚ)] [] = JSNum.fin 0 ∧
    calculateCovariance [(1 : ℚ), 2] [(3 : ℚ), 5] =
      JSNum.fin (devProd [(1 : ℚ), 2] [(3 : ℚ), 5] / ((([(1 : ℚ), 2] : List ℚ).length : ℚ) - 1)) ∧
    calculateCovariance [(1 : ℚ), 2, 4] [(1 : ℚ), 2, 4] =
      JSNum.fin (sampleVariance [(1 : ℚ), 2, 4]) :=
  ⟨(claim_C4 _ _).1 (by norm_num), (claim_C4 _ _).2.1 rfl (by norm_num),
    (claim_C4 [(1 : ℚ), 2, 4] [(1 : ℚ), 2, 4]).2.2 (by norm_num)⟩

/-- C5 counterexample: the unguarded `sharpe = growth / volatility` does
not produce a single sentinel on zero volatility.  With the exact
constant-ratio series `[100, 110, 121]` the volatility is 0 and sharpe is
plus infinity, while with the constant series `[100, 100]` it is NaN —
two different values, neither of them under a single documented
convention (`Rat.sqrt` stands in for `Math.sqrt`; both series give
variance exactly 0, where `Math.sqrt` returns exactly 0). -/
theorem claim_C5_counterexample :
    (metrics Rat.sqrt [(0 : ℚ), 0] [(100 : ℚ), 110, 121]).sharpe = JSNum.inf true ∧
    (metrics Rat.sqrt [(0 : ℚ)] [(100 : ℚ), 100]).sharpe = JSNum.nan ∧
    JSNum.inf true ≠ JSNum.nan := by
  refine ⟨?_, ?_, by simp⟩
  · norm_num [metrics, jdiv, List.range_succ, Rat.sqrt]
  · norm_num [metrics, jdiv, List.range_succ, Rat.sqrt]

/-- C5 (amended): for any square-root model with `sqrtFn 0 = 0` and any
closes series of length at least 2 whose successive simple returns are all
the same value `r`, the computed volatility is exactly 0 and no exception
is raised, but the sharpe field is not one fixed sentinel: it is NaN when
`r = 0`, plus infinity when `r > 0` and minus infinity when `r < 0`
(IEEE division of the finite growth by zero). -/
theorem claim_C5 (sqrtFn : ℚ → ℚ) (bench closes : List ℚ) (r : ℚ)
    (h0 : sqrtFn 0 = 0) (hlen : 2 ≤ closes.length)
    (hr : ∀ i : ℕ, i + 1 < closes.length →
      (closes.getD (i + 1) 0 - closes.getD i 0) / closes.getD i 0 = r) :
    (metrics sqrtFn bench closes).volatility = 0 ∧
      (metrics sqrtFn bench closes).sharpe =
        (if r = 0 then JSNum.nan
         else if 0 < r then JSNum.inf true else JSNum.inf false) := by
  obtain ⟨hv, hs⟩ := metrics_constant sqrtFn bench closes r h0 hlen hr
  refine ⟨hv, ?_⟩
  rw [hs, jdiv_fin_zero]
  by_cases hr0 : r = 0
  · simp [hr0]
  · by_cases hrp : 0 < r
    · rw [if_neg (mul_ne_zero hr0 (by norm_num)), if_pos (by positivity),
        if_neg hr0, if_pos hrp]
    · have hrneg : r < 0 := lt_of_le_of_ne (not_lt.mp hrp) hr0
      rw [if_neg (mul_ne_zero hr0 (by norm_num)), if_neg (by nlinarith),
        if_neg hr0, if_neg hrp]

theorem claim_C5_witness :
    Rat.sqrt 0 = 0 ∧ 2 ≤ ([(100 : ℚ), 110, 121] : List ℚ).length ∧
      (metrics Rat.sqrt [(0 : ℚ), 0] [(100 : ℚ), 110, 121]).volatility = 0 ∧
      (metrics Rat.sqrt [(0 : ℚ), 0] [(100 : ℚ), 110, 121]).sharpe = JSNum.inf true := by
  have h0 : Rat.sqrt 0 = 0 := by norm_num [Rat.sqrt]
  have hr : ∀ i : ℕ, i + 1 < ([(100 : ℚ), 110, 121] : List ℚ).length →
      (([(100 : ℚ), 110, 121] : List ℚ).getD (i + 1) 0 -
        ([(100 : ℚ), 110, 121] : List ℚ).getD i 0) /
        ([(100 : ℚ), 110, 121] : List ℚ).getD i 0 = (1 / 10 : ℚ) := by
    intro i hi
    simp only [List.length_cons, List.length_nil] at hi
    have hi2 : i < 2 := by omega
    interval_cases i <;> norm_num
  obtain ⟨hv, hs⟩ := claim_C5 Rat.sqrt [(0 : ℚ), 0] [(100 : ℚ), 110, 121] (1 / 10)
    h0 (by norm_num) hr
  refine ⟨h0, by norm_num, hv, ?_⟩
  rw [hs]
  norm_num

/-- C6: for every constant price series of length at least 2 and every
steps, the forecast is the constant value at every projected point and
`rSquared = 0` (the flat-series branch, not 1). -/
theorem claim_C6 (c : ℚ) (n steps : ℕ) (h : 2 ≤ n) :
    generateForecast (List.replicate n c) steps =
      (List.replicate steps (JSNum.fin c), JSNum.fin 0) := by
  have hlen : (List.replicate n c).length = n := List.length_replicate n c
  have h2 : 2 ≤ (List.replicate n c).length := by rw [hlen]; exact h
  have hn : ((n : ℚ)) ≠ 0 := Nat.cast_ne_zero.mpr (by omega)
  have hsum : (List.replicate n c).sum = (n : ℚ) * c := by
    rw [List.sum_replicate, nsmul_eq_mul]
  have hXY : fcSumXY (List.replicate n c) = (∑ i in Finset.range n, (i : ℚ)) * c := by
    rw [fcSumXY_eq, hlen]
    have hcg : (∑ i in Finset.range n, (i : ℚ) * (List.replicate n c).getD i 0)
        = ∑ i in Finset.range n, (i : ℚ) * c :=
      Finset.sum_congr rfl (fun i hi => by
        rw [getD_replicate c n i (Finset.mem_range.mp hi)])
    rw [hcg, Finset.sum_mul]
  have hslope : slopeQ (List.replicate n c) = 0 := by
    unfold slopeQ
    rw [hlen, hXY, hsum, fcSumX_eq]
    have hz : (n : ℚ) * ((∑ i in Finset.range n, (i : ℚ)) * c) -
        (∑ i in Finset.range n, (i : ℚ)) * ((n : ℚ) * c) = 0 := by ring
    rw [hz, zero_div]
  have hinter : interceptQ (List.replicate n c) = c := by
    unfold interceptQ
    rw [hlen, hslope, hsum, zero_mul, sub_zero, mul_div_cancel_left₀ _ hn]
  have hmean : meanQ (List.replicate n c) = c := by
    unfold meanQ
    rw [hsum, hlen, mul_div_cancel_left₀ _ hn]
  have hTot : ssTotQ (List.replicate n c) = 0 := by
    unfold ssTotQ
    rw [hlen]
    refine Finset.sum_eq_zero (fun i hi => ?_)
    rw [getD_replicate c n i (Finset.mem_range.mp hi), hmean, sub_self, mul_zero]
  have hfst : (generateForecast (List.replicate n c) steps).1 =
      List.replicate steps (JSNum.fin c) := by
    rw [generateForecast_points _ _ h2]
    simp only [hslope, hinter, zero_mul, zero_add]
    rw [List.map_const', List.length_range]
  have hsnd : (generateForecast (List.replicate n c) steps).2 = JSNum.fin 0 := by
    rw [generateForecast_rSq _ _ h2, if_pos hTot]
  rw [← hfst, ← hsnd]

theorem claim_C6_witness :
    2 ≤ 5 ∧ generateForecast (List.replicate 5 (100 : ℚ)) 3 =
      (List.replicate 3 (JSNum.fin 100), JSNum.fin 0) :=
  ⟨by norm_num, claim_C6 100 5 3 (by norm_num)⟩

/-- C7: for the input closes = [10, 20, 30, 40, 50] and steps = 2,
`generateForecast` returns the forecast [60, 70] and `rSquared = 1` (the
regression is exact: slope 10, intercept 10, zero residual). -/
theorem claim_C7 :
    generateForecast [(10 : ℚ), 20, 30, 40, 50] 2 =
      ([JSNum.fin 60, JSNum.fin 70], JSNum.fin 1) := by
  norm_num [generateForecast, fcSlope, fcIntercept, fcSsRes, fcSsTot, fcSumX, fcSumXY,
    fcSumXX, jdiv, jsum, jadd, jsub, jneg, jmul, List.range_succ]

/-- C8: for every closes series and every steps, the returned `rSquared`
is a finite rational in the closed interval [0, 1]: 0 on degenerate input
(length < 2 or a flat series), and otherwise `1 - ssRes/ssTot` where the
least-squares identity gives `0 ≤ ssRes ≤ ssTot`. -/
theorem claim_C8 (data : List ℚ) (steps : ℕ) :
    ∃ q : ℚ, (generateForecast data steps).2 = JSNum.fin q ∧ 0 ≤ q ∧ q ≤ 1 := by
  rcases lt_or_le data.length 2 with h | h
  · exact ⟨0, by rw [generateForecast_degenerate data steps h], le_refl 0, by norm_num⟩
  · rw [generateForecast_rSq data steps h]
    rcases eq_or_ne (ssTotQ data) 0 with hv | hv
    · exact ⟨0, by rw [if_pos hv], le_refl 0, by norm_num⟩
    · have hpos : 0 < ssTotQ data := lt_of_le_of_ne (ssTotQ_nonneg data) (Ne.symm hv)
      refine ⟨1 - ssResQ data / ssTotQ data, by rw [if_neg hv], ?_, ?_⟩
      · have hle : ssResQ data / ssTotQ data ≤ 1 :=
          (div_le_one hpos).mpr (ssResQ_le_ssTotQ data h)
        linarith
      · have hge : 0 ≤ ssResQ data / ssTotQ data :=
          div_nonneg (ssResQ_nonneg data) (le_of_lt hpos)
        linarith

/-- C9 counterexample: with x = [1, 2] and the all-zero benchmark
y = [0, 0] (equal lengths), doubling x leaves beta at the zero-variance
default 1.0 while twice `calculateBeta x y` is 2, so the claimed exact
scaling fails for this equal-length pair. -/
theorem claim_C9_counterexample :
    calculateBeta (List.map (fun a => 2 * a) [(1 : ℚ), 2]) [(0 : ℚ), 0] = JSNum.fin 1 ∧
    jmul (JSNum.fin 2) (calculateBeta [(1 : ℚ), 2] [(0 : ℚ), 0]) = JSNum.fin 2 ∧
    JSNum.fin (1 : ℚ) ≠ JSNum.fin (2 : ℚ) := by
  refine ⟨?_, ?_, by norm_num⟩
  · norm_num [calculateBeta, jdiv, jsum, jadd, jsub, jneg, jmul, List.range_succ]
  · norm_num [calculateBeta, jdiv, jsum, jadd, jsub, jneg, jmul, List.range_succ]

/-- C9 (amended): for equal-length series whose benchmark deviation-square
sum is nonzero (so the zero-variance guard that returns the constant 1.0
is not taken), doubling every element of x exactly doubles
`calculateBeta x y`. -/
theorem claim_C9 (x y : List ℚ) (h : x.length = y.length) (hv : devSq y ≠ 0) :
    calculateBeta (x.map (fun a => 2 * a)) y = jmul (JSNum.fin 2) (calculateBeta x y) := by
  have h0 : x.length ≠ 0 := by
    intro h0
    apply hv
    have hy0 : y.length = 0 := by omega
    simp [devSq, hy0]
  have hsum2 : ∀ l : List ℚ, (l.map (fun a => 2 * a)).sum = 2 * l.sum := by
    intro l
    induction l with
    | nil => simp
    | cons a t ih => simp [ih, mul_add]
  have hmean2 : meanQ (x.map (fun a => 2 * a)) = 2 * meanQ x := by
    unfold meanQ
    rw [hsum2, List.length_map]
    ring
  have hdevp : devProd (x.map (fun a => 2 * a)) y = 2 * devProd x y := by
    unfold devProd
    simp only [List.length_map, hmean2, getD_map_two_mul]
    rw [Finset.mul_sum]
    exact Finset.sum_congr rfl (fun i hi => by ring)
  rw [calculateBeta_eq _ y (by simp [h]) (by simp [h0]), if_neg hv]
  rw [calculateBeta_eq x y h h0, if_neg hv]
  rw [jmul_fin, hdevp, mul_div_assoc]

theorem claim_C9_witness :
    ([(1 : ℚ), 2] : List ℚ).length = ([(0 : ℚ), 2] : List ℚ).length ∧
    devSq [(0 : ℚ), 2] ≠ 0 ∧
    calculateBeta (List.map (fun a => 2 * a) [(1 : ℚ), 2]) [(0 : ℚ), 2] =
      jmul (JSNum.fin 2) (calculateBeta [(1 : ℚ), 2] [(0 : ℚ), 2]) :=
  ⟨rfl, by norm_num [devSq, meanQ, Finset.sum_range_succ],
    claim_C9 [(1 : ℚ), 2] [(0 : ℚ), 2] rfl
      (by norm_num [devSq, meanQ, Finset.sum_range_succ])⟩

/-- C10: the singleton case really reaches the division by `n - 1 = 0`:
for the equal-length length-1 inputs [1] and [2] the guard (which covers
only `n = 0` and mismatched lengths) does not fire, and the function
returns `0/0 = NaN` rather than the documented safe default 0. -/
theorem claim_C10 :
    calculateCovariance [(1 : ℚ)] [(2 : ℚ)] = JSNum.nan ∧ JSNum.nan ≠ JSNum.fin 0 := by
  constructor
  · norm_num [calculateCovariance, jdiv, List.range_succ]
  · simp
